import Mathlib

/-!
Verification of the Morphic core: the hOCR data model, the dehyphenation
processor (src/processors/dehyphenation.py) and the pikepdf text-layer
synthesizer (src/engines/pdf/pikepdf_engine.py), shallowly embedded in Lean.

Python floats are modelled as exact rationals (ℚ); Python `str` is modelled
as Lean `String`, with the handful of string primitives the code uses
(split, strip, startswith, endswith, lower, replace of single characters,
int()) re-implemented structurally over the character list so that they
evaluate inside the kernel.  `str.isalpha` is modelled by `Char.isAlpha`
(the code only meets ASCII words in the properties checked here).
-/

namespace Morphic

/-- Model of Python `str.split(sep)` for a single-character separator:
split the character list at every occurrence of `sep`, keeping empty pieces. -/
def splitCharList (sep : Char) : List Char → List (List Char)
  | [] => [[]]
  | c :: rest =>
    let r := splitCharList sep rest
    if c = sep then [] :: r
    else
      match r with
      | [] => [[c]]
      | g :: gs => (c :: g) :: gs

/-- Model of Python `s.split(sep)` (single-character separator). -/
def pySplitOn (s : String) (sep : Char) : List String :=
  (splitCharList sep s.toList).map String.mk

/-- Model of Python `str.strip()`: drop leading and trailing whitespace. -/
def pyStrip (s : String) : String :=
  String.mk (((s.toList.dropWhile Char.isWhitespace).reverse.dropWhile
    Char.isWhitespace).reverse)

/-- Model of Python `str.split()` with no argument: split on whitespace runs,
dropping empty pieces. -/
def pySplitWs (s : String) : List String :=
  ((splitCharList ' ' (String.mk (s.toList.map
      (fun c => if c.isWhitespace then ' ' else c))).toList).map String.mk).filter
    (fun p => p ≠ "")

/-- Model of Python `str.startswith(pre)`. -/
def pyStartsWith (s pre : String) : Bool :=
  s.toList.take pre.toList.length == pre.toList

/-- Model of Python `str.endswith(suf)`. -/
def pyEndsWith (s suf : String) : Bool :=
  s.toList.reverse.take suf.toList.length == suf.toList.reverse

/-- Model of Python `str.lower()` (ASCII letters). -/
def pyLower (s : String) : String :=
  String.mk (s.toList.map Char.toLower)

/-- Model of Python `str.isalpha()` (ASCII letters): nonempty and
every character alphabetic. -/
def pyIsAlpha (s : String) : Bool :=
  s.toList ≠ [] && s.toList.all Char.isAlpha

/-- Model of Python `str.rstrip(c)` for one strip character: remove every
trailing occurrence of `c`. -/
def pyRstripChar (s : String) (c : Char) : String :=
  String.mk ((s.toList.reverse.dropWhile (fun d => d = c)).reverse)

/-- Digits-only parse used by the model of Python `int()`. -/
def digitsToNat? (cs : List Char) : Option Nat :=
  if cs = [] then none
  else if cs.all Char.isDigit then
    some (cs.foldl (fun n c => n * 10 + (c.toNat - 48)) 0)
  else none

/-- Model of Python `int(s)`: optional sign followed by decimal digits
(surrounding whitespace stripped); `none` models the `ValueError`. -/
def pyInt? (s : String) : Option Int :=
  match (pyStrip s).toList with
  | '-' :: rest => (digitsToNat? rest).map (fun n => -(n : Int))
  | '+' :: rest => (digitsToNat? rest).map (fun n => (n : Int))
  | cs => (digitsToNat? cs).map (fun n => (n : Int))

/-- Model of Python `'; '.join(parts)` (and of `''.join` with `sep := ""`). -/
def joinSep (sep : String) : List String → String
  | [] => ""
  | [p] => p
  | p :: q :: rest => p ++ sep ++ joinSep sep (q :: rest)

/-- Bounding box from hOCR: integer pixel rectangle, origin top-left.
Defined identically in dehyphenation.py and pikepdf_engine.py. -/
structure BoundingBox where
  x1 : Int
  y1 : Int
  x2 : Int
  y2 : Int
deriving DecidableEq

/-- `BoundingBox.width` property (pikepdf_engine.py). -/
def BoundingBox.width (b : BoundingBox) : Int := b.x2 - b.x1

/-- `BoundingBox.height` property (pikepdf_engine.py). -/
def BoundingBox.height (b : BoundingBox) : Int := b.y2 - b.y1

/-- `BoundingBox.merge_with` (dehyphenation.py): smallest box spanning both. -/
def BoundingBox.merge_with (b o : BoundingBox) : BoundingBox :=
  { x1 := min b.x1 o.x1, y1 := min b.y1 o.y1,
    x2 := max b.x2 o.x2, y2 := max b.y2 o.y2 }

/-- `BoundingBox.to_title_string` (dehyphenation.py). -/
def BoundingBox.to_title_string (b : BoundingBox) : String :=
  "bbox " ++ toString b.x1 ++ " " ++ toString b.y1 ++ " " ++
    toString b.x2 ++ " " ++ toString b.y2

/-- A box is valid when its corners are ordered (spec section 3). -/
def BoundingBox.valid (b : BoundingBox) : Prop := b.x1 ≤ b.x2 ∧ b.y1 ≤ b.y2

instance (b : BoundingBox) : Decidable b.valid := by
  unfold BoundingBox.valid; infer_instance

/-- Non-strict containment of rectangles: `a` contains `b`. -/
def BoundingBox.contains (a b : BoundingBox) : Prop :=
  a.x1 ≤ b.x1 ∧ a.y1 ≤ b.y1 ∧ b.x2 ≤ a.x2 ∧ b.y2 ≤ a.y2

instance (a b : BoundingBox) : Decidable (a.contains b) := by
  unfold BoundingBox.contains; infer_instance

/-- Strict (proper) containment: contains it and differs from it. -/
def BoundingBox.strictlyContains (a b : BoundingBox) : Prop :=
  a.contains b ∧ a ≠ b

instance (a b : BoundingBox) : Decidable (a.strictlyContains b) := by
  unfold BoundingBox.strictlyContains; infer_instance

/-- A child node of a word element: lxml elements expose `text` (direct
text) and `tail` (text after the element). -/
structure SubNode where
  text : Option String
  tail : Option String
deriving DecidableEq

/-- A word element of the hOCR tree: its direct text, its child nodes,
its `title` attribute ("" models an absent attribute), and an identity
`id` modelling lxml element identity. -/
structure WordE where
  id : Nat
  text : Option String
  children : List SubNode
  title : String
deriving DecidableEq

/-- A line element of the hOCR tree: its `title` attribute and its words. -/
structure LineE where
  title : String
  words : List WordE
deriving DecidableEq

/-- A parsed hOCR page: the ordered list of its lines. -/
def Page := List LineE

instance : DecidableEq Page := inferInstanceAs (DecidableEq (List LineE))

/-- `_parse_bbox` (identical in both source files): first `;`-field of the
title, split on whitespace, must read `bbox x1 y1 x2 y2`; any failure
yields the degenerate zero box. -/
def parseBBox (title : String) : BoundingBox :=
  if title = "" then ⟨0, 0, 0, 0⟩
  else
    let bboxPart := pyStrip ((pySplitOn title ';').headD "")
    let parts := pySplitWs bboxPart
    if 5 ≤ parts.length ∧ parts.headD "" = "bbox" then
      match pyInt? (parts.getD 1 ""), pyInt? (parts.getD 2 ""),
            pyInt? (parts.getD 3 ""), pyInt? (parts.getD 4 "") with
      | some a, some b, some c, some d => ⟨a, b, c, d⟩
      | _, _, _, _ => ⟨0, 0, 0, 0⟩
    else ⟨0, 0, 0, 0⟩

/-- Concatenation of the children's `tail` texts (absent text is ""). -/
def tailsText : List SubNode → String
  | [] => ""
  | s :: rest => s.tail.getD "" ++ tailsText rest

/-- `PikePDFEngine._get_element_text`: the element's own text plus each
child's tail (child text is NOT read), stripped. -/
def getElementText (w : WordE) : String :=
  pyStrip (w.text.getD "" ++ tailsText w.children)

/-- Concatenation of the children's `text` and `tail` texts. -/
def childrenText : List SubNode → String
  | [] => ""
  | s :: rest => s.text.getD "" ++ s.tail.getD "" ++ childrenText rest

/-- `Dehyphenator._get_word_text`: the element's own text plus each child's
text and tail, stripped. -/
def getWordText (w : WordE) : String :=
  pyStrip (w.text.getD "" ++ childrenText w.children)

/-! ### Text-layer synthesizer (`PikePDFEngine`) -/

/-- Characters produced for one input character by the chained `replace`
calls that escape backslash and both parentheses. -/
def escapeBasicChar (c : Char) : List Char :=
  if c = '\\' then ['\\', '\\']
  else if c = '(' then ['\\', '(']
  else if c = ')' then ['\\', ')']
  else [c]

/-- The backslash/parenthesis escaping applied in the non-ASCII branches of
`_escape_pdf_string`. -/
def escapeBasic (s : String) : String :=
  String.mk (s.toList.foldr (fun c acc => escapeBasicChar c ++ acc) [])

/-- Characters produced for one input character by the full escaping chain
of the ASCII branch: backslash, parentheses, newline, carriage return, tab. -/
def escapeFullChar (c : Char) : List Char :=
  if c = '\\' then ['\\', '\\']
  else if c = '(' then ['\\', '(']
  else if c = ')' then ['\\', ')']
  else if c = '\n' then ['\\', 'n']
  else if c = '\r' then ['\\', 'r']
  else if c = '\t' then ['\\', 't']
  else [c]

/-- The escaping applied by `_escape_pdf_string` on ASCII-only input. -/
def escapeFull (s : String) : String :=
  String.mk (s.toList.foldr (fun c acc => escapeFullChar c ++ acc) [])

/-- Python `text.encode('ascii')` succeeds exactly when every character's
code point is below 128. -/
def isAsciiStr (s : String) : Bool :=
  s.toList.all (fun c => c.toNat < 128)

/-- The fixed substitution table of `_escape_pdf_string`: curly quotes,
en/em dashes, ellipsis, non-breaking space, fi/fl ligatures. -/
def normalizeChar (c : Char) : List Char :=
  if c = Char.ofNat 0x2018 then [Char.ofNat 39]
  else if c = Char.ofNat 0x2019 then [Char.ofNat 39]
  else if c = Char.ofNat 0x201c then ['"']
  else if c = Char.ofNat 0x201d then ['"']
  else if c = Char.ofNat 0x2013 then ['-']
  else if c = Char.ofNat 0x2014 then ['-']
  else if c = Char.ofNat 0x2026 then ['.', '.', '.']
  else if c = Char.ofNat 0xa0 then [' ']
  else if c = Char.ofNat 0xfb01 then ['f', 'i']
  else if c = Char.ofNat 0xfb02 then ['f', 'l']
  else [c]

/-- The replacement loop of `_escape_pdf_string` over the substitution table. -/
def normalizeUnicode (s : String) : String :=
  String.mk (s.toList.foldr (fun c acc => normalizeChar c ++ acc) [])

/-- Python `text.encode('ascii', errors='ignore')`: drop every character
whose code point is at least 128. -/
def dropNonAscii (s : String) : String :=
  String.mk (s.toList.filter (fun c => c.toNat < 128))

/-- `PikePDFEngine._escape_pdf_string`: ASCII input gets the full escaping
(including newline/CR/tab); otherwise the substitution table is applied,
then if the result is ASCII only backslash/parens are escaped, else the
remaining non-ASCII characters are dropped first. -/
def escapePdfString (s : String) : String :=
  if isAsciiStr s then escapeFull s
  else
    let t := normalizeUnicode s
    if isAsciiStr t then escapeBasic t
    else escapeBasic (dropNonAscii t)

/-- One entry of the synthesizer's per-line `word_data` list. -/
structure WordData where
  text : String
  x_pt : ℚ
  font_size : ℚ
  bbox : BoundingBox
deriving DecidableEq

/-- The per-word filter and computation inside `_build_line_with_tj`'s
collection loop: skip empty text and non-positive boxes, else record the
page-unit origin X and the clamped font size. -/
def wordDataOf? (w : WordE) (dpi fontScale : ℚ) : Option WordData :=
  let t := getElementText w
  if t = "" then none
  else
    let bbox := parseBBox w.title
    if bbox.width ≤ 0 ∨ bbox.height ≤ 0 then none
    else
      some { text := t,
             x_pt := (bbox.x1 : ℚ) / dpi * 72,
             font_size := max 4 ((bbox.height : ℚ) / dpi * 72 * fontScale),
             bbox := bbox }

/-- Whether a word survives the synthesizer's per-word filter: non-empty
extracted text and positive bounding-box width and height. -/
def qualifies (w : WordE) : Bool :=
  if getElementText w = "" then false
  else if (parseBBox w.title).width ≤ 0 ∨ (parseBBox w.title).height ≤ 0 then false
  else true

/-- The collection loop of `_build_line_with_tj`. -/
def collectWordData (dpi fontScale : ℚ) : List WordE → List WordData
  | [] => []
  | w :: ws =>
    match wordDataOf? w dpi fontScale with
    | some d => d :: collectWordData dpi fontScale ws
    | none => collectWordData dpi fontScale ws

/-- One element of a grouped show-text (TJ) array: a spacing adjustment
(kern) or a literal text run. -/
inductive TJItem where
  | kern (k : Int)
  | str (s : String)
deriving DecidableEq

/-- A PDF content-stream instruction as the synthesizer emits it. -/
inductive Instr where
  | BT
  | ET
  | Tr (mode : Int)
  | Tf (size : ℚ)
  | Tm (x y : ℚ)
  | TJ (items : List TJItem)
  | q
  | cm (w h : ℚ)
  | doIm
  | Q
deriving DecidableEq

/-- The inter-word part of the TJ array: before every word after the first,
the fixed kern `WORD_SPACE_KERN = -300` and an explicit space run. -/
def mkTJrest : List WordData → List TJItem
  | [] => []
  | w :: ws =>
    TJItem.kern (-300) :: TJItem.str " " :: TJItem.str (escapePdfString w.text) ::
      mkTJrest ws

/-- The TJ array built by `_build_line_with_tj` from the collected words. -/
def mkTJ : List WordData → List TJItem
  | [] => []
  | w :: ws => TJItem.str (escapePdfString w.text) :: mkTJrest ws

/-- `PikePDFEngine._build_line_with_tj`: emit one BT/ET text object holding
one TJ array for the line, or nothing when no word survives the filter;
returns the emitted instructions and the number of words processed. -/
def buildLineWithTJ (words : List WordE) (lineYPt dpi fontScale : ℚ)
    (mode : Int) : List Instr × Nat :=
  if words = [] then ([], 0)
  else
    match collectWordData dpi fontScale words with
    | [] => ([], 0)
    | w :: ws =>
      let wd := w :: ws
      let avg := (wd.map WordData.font_size).sum / (wd.length : ℚ)
      ([Instr.BT, Instr.Tr mode, Instr.Tf avg, Instr.Tm w.x_pt lineYPt,
        Instr.TJ (mkTJ wd), Instr.ET], wd.length)

/-- The line baseline Y computed in `_build_text_layer`: page height in
points minus the line box's bottom edge converted to points. -/
def lineYPt (pageHeightPt : ℚ) (lineTitle : String) (dpi : ℚ) : ℚ :=
  pageHeightPt - ((parseBBox lineTitle).y2 : ℚ) / dpi * 72

/-- The instructions `_build_text_layer` emits for one line. -/
def textObjectFor (pageHeightPt dpi fontScale : ℚ) (mode : Int)
    (l : LineE) : List Instr :=
  (buildLineWithTJ l.words (lineYPt pageHeightPt l.title dpi) dpi fontScale mode).1

/-- `PikePDFEngine._build_text_layer` on a tree with explicit line
structure: process the lines in order, skipping lines without words. -/
def buildTextLayer (pageHeightPt dpi fontScale : ℚ) (mode : Int) :
    List LineE → List Instr
  | [] => []
  | l :: ls =>
    (if l.words = [] then []
     else (buildLineWithTJ l.words (lineYPt pageHeightPt l.title dpi)
             dpi fontScale mode).1) ++
    buildTextLayer pageHeightPt dpi fontScale mode ls

/-- `PikePDFEngine._build_image_layer`: save state, scale to page size,
paint the image XObject, restore state. -/
def buildImageLayer (widthPt heightPt : ℚ) : List Instr :=
  [Instr.q, Instr.cm widthPt heightPt, Instr.doIm, Instr.Q]

/-- The content-stream assembly of `create_searchable_page`: the invisible
text layer first, then the image layer on top. -/
def createContentStream (lines : List LineE) (widthPx heightPx dpi fontScale : ℚ)
    (mode : Int) : List Instr :=
  buildTextLayer (heightPx / dpi * 72) dpi fontScale mode lines ++
    buildImageLayer (widthPx / dpi * 72) (heightPx / dpi * 72)

/-- A line contributes a text object exactly when some word qualifies. -/
def lineHasQual (l : LineE) : Bool :=
  l.words.any qualifies

/-! ### Dehyphenation processor (`Dehyphenator`) -/

/-- The injected word-validity oracle (pyenchant dictionary): membership
check and ordered suggestions. -/
structure Dict where
  check : String → Bool
  suggest : String → List String

/-- `MergeCandidate` (dehyphenation.py): element identities, the original
texts, the proposed merged text, both boxes, and the confidence. -/
structure Candidate where
  firstId : Nat
  secondId : Nat
  firstText : String
  secondText : String
  mergedText : String
  firstBBox : BoundingBox
  secondBBox : BoundingBox
  confidence : ℚ

/-- `first_text.rstrip('-')`: remove every trailing hyphen. -/
def rstripHyphens (s : String) : String :=
  pyRstripChar s '-'

/-- The merged text formed in `_evaluate_merge_candidate`: hyphens stripped
from the first text, second text appended verbatim. -/
def mergedTextOf (firstText secondText : String) : String :=
  rstripHyphens firstText ++ secondText

/-- `merged_text.replace("'", "")`: remove every apostrophe. -/
def removeApostrophes (s : String) : String :=
  String.mk (s.toList.filter (fun c => c ≠ Char.ofNat 39))

/-- The confidence assigned by `_evaluate_merge_candidate` to a merged
text, `none` meaning rejection: dictionary validation (0.95 exact hit,
0.90 lowercased hit, 0.70 among the first five lowercased suggestions), or
without a dictionary the alphabetic heuristic at 0.60. -/
def mergeConfidence (dict : Option Dict) (mergedText : String) : Option ℚ :=
  match dict with
  | some d =>
    if d.check mergedText then some (19/20)
    else if d.check (pyLower mergedText) then some (9/10)
    else if pyLower mergedText ∈ ((d.suggest mergedText).take 5).map pyLower then
      some (7/10)
    else none
  | none =>
    if ¬ pyIsAlpha mergedText ∧ ¬ pyIsAlpha (removeApostrophes mergedText) then
      none
    else some (3/5)

/-- `Dehyphenator._evaluate_merge_candidate`: length check, then the
confidence assignment above; `none` rejects the pair. -/
def evaluateMergeCandidate (dict : Option Dict) (minLen : Nat)
    (firstElem secondElem : WordE) (firstText secondText : String) :
    Option Candidate :=
  if (mergedTextOf firstText secondText).length < minLen then none
  else
    (mergeConfidence dict (mergedTextOf firstText secondText)).map (fun conf =>
      { firstId := firstElem.id, secondId := secondElem.id,
        firstText := firstText, secondText := secondText,
        mergedText := mergedTextOf firstText secondText,
        firstBBox := parseBBox firstElem.title,
        secondBBox := parseBBox secondElem.title,
        confidence := conf })

/-- The candidates one adjacent line pair contributes: skip when either
line has no words or either extracted text is empty; the last word of the
upper line must end with a hyphen; then evaluate the pair. -/
def pairCandidates (dict : Option Dict) (minLen : Nat) (cur nxt : LineE) :
    List Candidate :=
  match cur.words.getLast?, nxt.words.head? with
  | some lastW, some firstW =>
    if getWordText lastW = "" ∨ getWordText firstW = "" then []
    else if ¬ pyEndsWith (getWordText lastW) "-" then []
    else
      (evaluateMergeCandidate dict minLen lastW firstW
        (getWordText lastW) (getWordText firstW)).toList
  | _, _ => []

/-- `Dehyphenator._find_merge_candidates`: scan adjacent line pairs in
document order. -/
def findMergeCandidates (dict : Option Dict) (minLen : Nat) :
    Page → List Candidate
  | [] => []
  | [_] => []
  | cur :: nxt :: rest =>
    pairCandidates dict minLen cur nxt ++
      findMergeCandidates dict minLen (nxt :: rest)

/-- The `new_parts` loop of `_update_bbox_in_title`: walk the `;`-fields,
replacing every field that starts with "bbox" by the new bbox string,
keeping other nonempty fields stripped, and recording whether a bbox
field was seen. -/
def updateBboxParts (bbox : BoundingBox) : List String → List String × Bool
  | [] => ([], false)
  | part :: rest =>
    let tailRes := updateBboxParts bbox rest
    let p := pyStrip part
    if pyStartsWith p "bbox" then (bbox.to_title_string :: tailRes.1, true)
    else if p ≠ "" then (p :: tailRes.1, tailRes.2)
    else tailRes

/-- The final field list of `_update_bbox_in_title`: the rewritten fields,
with the bbox string prepended when no bbox field was found. -/
def updateBboxFields (title : String) (bbox : BoundingBox) : List String :=
  let res := updateBboxParts bbox (pySplitOn title ';')
  if res.2 then res.1 else bbox.to_title_string :: res.1

/-- `Dehyphenator._update_bbox_in_title`. -/
def updateBboxInTitle (title : String) (bbox : BoundingBox) : String :=
  if title = "" then bbox.to_title_string
  else joinSep "; " (updateBboxFields title bbox)

/-- The stripped nonempty `;`-fields of a title attribute. -/
def titleFields (title : String) : List String :=
  ((pySplitOn title ';').map pyStrip).filter (fun p => p ≠ "")

/-- The mutation `_apply_merges` performs on the first word element:
merged text set, children's text and tail cleared, title rewritten with
the merged bounding box. -/
def mergedWord (w : WordE) (c : Candidate) : WordE :=
  { w with
    text := some c.mergedText,
    children := w.children.map (fun _ => { text := none, tail := none }),
    title := updateBboxInTitle w.title (c.firstBBox.merge_with c.secondBBox) }

/-- Apply a function to every word of the page carrying a given identity
(modelling mutation of an lxml element through a held reference). -/
def mapWordId (page : Page) (i : Nat) (f : WordE → WordE) : Page :=
  page.map (fun l =>
    { l with words := l.words.map (fun w => if w.id = i then f w else w) })

/-- Remove from its line every word carrying a given identity (modelling
`parent.remove(second_elem)`). -/
def removeWordId (page : Page) (i : Nat) : Page :=
  page.map (fun l => { l with words := l.words.filter (fun w => w.id ≠ i) })

/-- All words of a page in document order. -/
def allWords (page : Page) : List WordE :=
  page.foldr (fun l acc => l.words ++ acc) []

/-- Look up a word element by identity. -/
def wordWithId (page : Page) (i : Nat) : Option WordE :=
  (allWords page).find? (fun w => w.id = i)

/-- The effect of one accepted merge: mutate the first element, then
delete the second from its line. -/
def applyOne (page : Page) (c : Candidate) : Page :=
  removeWordId (mapWordId page c.firstId (fun w => mergedWord w c)) c.secondId

/-- `Dehyphenator._apply_merges`: apply candidates in order, skipping those
with confidence below 0.5, and count the merges applied. -/
def applyMerges (page : Page) : List Candidate → Page × Nat
  | [] => (page, 0)
  | c :: cs =>
    if c.confidence < 1/2 then applyMerges page cs
    else
      let res := applyMerges (applyOne page c) cs
      (res.1, res.2 + 1)

/-- The in-memory part of `Dehyphenator.process_file`: find the candidates
on the parsed page, then apply them, returning the page and the count. -/
def processPage (dict : Option Dict) (minLen : Nat) (page : Page) : Page × Nat :=
  applyMerges page (findMergeCandidates dict minLen page)

/-! ### Parse-failure behaviour of the two engines -/

/-- An input markup abstracted by the outcomes of the two parse attempts:
the strict XML parse and the lenient recovering HTML parse. -/
structure Markup where
  strictParse : Option Page
  lenientParse : Option Page

/-- `PikePDFEngine._parse_hocr`: strict parse, then lenient parse, and a
raised `RuntimeError` (modelled as `Except.error`) when both fail. -/
def pikeParseHocr (m : Markup) : Except Unit Page :=
  match m.strictParse with
  | some t => Except.ok t
  | none =>
    match m.lenientParse with
    | some t => Except.ok t
    | none => Except.error ()

/-- `Dehyphenator._parse_hocr`: strict parse, then lenient parse; every
failure is caught and yields `none`. -/
def dehyphParseHocr (m : Markup) : Option Page :=
  match m.strictParse with
  | some t => some t
  | none => m.lenientParse

/-- `Dehyphenator.process_file` without the file I/O: an unparsable input
yields the normal return value 0, not an error. -/
def dehyphProcessFile (dict : Option Dict) (minLen : Nat) (m : Markup) : Nat :=
  match dehyphParseHocr m with
  | none => 0
  | some page => (processPage dict minLen page).2

/-- Modelled from the claim's words (for comparison with the code): the
merge-candidate text formed by stripping THE trailing hyphen (one
character) and concatenating the next word verbatim. -/
def claimMergedText (firstText secondText : String) : String :=
  (if pyEndsWith firstText "-" then String.mk firstText.toList.dropLast
   else firstText) ++ secondText

/-! ### Concrete fixtures used by witnesses and counterexamples -/

/-- A word with bounding box (100,100,200,130), as in the spec's worked
example. -/
def wC3 : WordE :=
  { id := 0, text := some "w", children := [], title := "bbox 100 100 200 130" }

/-- A word whose whole text sits inside a child element (no direct text,
no tails). -/
def wC10 : WordE :=
  { id := 1, text := none, children := [{ text := some "word", tail := none }],
    title := "bbox 0 0 5 5" }

/-- First word of a two-word line. -/
def wA : WordE :=
  { id := 2, text := some "Hello", children := [], title := "bbox 0 0 10 10" }

/-- Second word of a two-word line. -/
def wB : WordE :=
  { id := 3, text := some "World", children := [], title := "bbox 12 0 20 10" }

/-- A line holding the two words above. -/
def lineW : LineE := { title := "bbox 0 0 20 10", words := [wA, wB] }

/-- The word "a-" ending the upper line of the short-merge example. -/
def wA6 : WordE := { id := 4, text := some "a-", children := [], title := "bbox 0 0 1 1" }

/-- The word "b" starting the lower line of the short-merge example. -/
def wB6 : WordE := { id := 5, text := some "b", children := [], title := "bbox 0 2 1 3" }

/-- Two lines ending in "a-" / starting with "b": the merged text "ab" is
below the default minimum length 4. -/
def pageA_B : Page :=
  [{ title := "", words := [wA6] }, { title := "", words := [wB6] }]

/-- The doubly-hyphenated word "ab--". -/
def wD6 : WordE := { id := 10, text := some "ab--", children := [], title := "bbox 0 0 1 1" }

/-- The word "cd" starting the next line. -/
def wE6 : WordE := { id := 11, text := some "cd", children := [], title := "bbox 0 2 1 3" }

/-- Two lines whose upper line ends with the doubly-hyphenated "ab--". -/
def pageC6 : Page :=
  [{ title := "", words := [wD6] }, { title := "", words := [wE6] }]

/-- A word text with an interior newline and a trailing non-ASCII é. -/
def sC8 : String := String.mk ['a', '\n', 'b', Char.ofNat 233]

/-- An input markup rejected by both the strict and the lenient parser. -/
def badMarkup : Markup := { strictParse := none, lenientParse := none }

/-- First word of a concrete merge, carrying a confidence field in its
title. -/
def wC4 : WordE :=
  { id := 20, text := some "re-", children := [],
    title := "bbox 0 0 2 2; x_wconf 95" }

/-- Second word of a concrete merge. -/
def wC4b : WordE :=
  { id := 21, text := some "trieving", children := [], title := "bbox 0 3 5 5" }

/-- Page holding the concrete merge pair. -/
def pageC4 : Page := [{ title := "", words := [wC4] },
                      { title := "", words := [wC4b] }]

/-- An accepted merge candidate (dictionary confidence 0.95). -/
def candC4 : Candidate :=
  { firstId := 20, secondId := 21, firstText := "re-", secondText := "trieving",
    mergedText := "retrieving", firstBBox := ⟨0, 0, 2, 2⟩,
    secondBBox := ⟨0, 3, 5, 5⟩, confidence := 19/20 }

/-- First word whose title carries a non-bbox field that starts with
"bbox". -/
def wCx : WordE :=
  { id := 30, text := some "ab-", children := [],
    title := "bbox 0 0 2 2; bboxy 7" }

/-- Second word of the counterexample merge. -/
def wCxb : WordE :=
  { id := 31, text := some "cd", children := [], title := "bbox 0 0 5 5" }

/-- Page holding the counterexample pair. -/
def pageCx : Page := [{ title := "", words := [wCx] },
                      { title := "", words := [wCxb] }]

/-- The counterexample candidate (confidence 0.95 ≥ 0.5). -/
def candCx : Candidate :=
  { firstId := 30, secondId := 31, firstText := "ab-", secondText := "cd",
    mergedText := "abcd", firstBBox := ⟨0, 0, 2, 2⟩,
    secondBBox := ⟨0, 0, 5, 5⟩, confidence := 19/20 }

/-- An oracle that rejects everything and suggests nothing. -/
def dNull : Dict := { check := fun _ => false, suggest := fun _ => [] }

/-! ### Helper lemmas -/

theorem mk_filter_eq_self {p : Char → Bool} {s : String}
    (h : ∀ c ∈ s.toList, p c = true) : String.mk (s.toList.filter p) = s := by
  rw [List.filter_eq_self.mpr h]
  cases s
  rfl

theorem tailsText_of_none {cs : List SubNode} (h : ∀ s ∈ cs, s.tail = none) :
    tailsText cs = "" := by
  induction cs with
  | nil => rfl
  | cons s rest ih =>
    have hs : s.tail = none := h s (by simp)
    have : tailsText rest = "" := ih (fun x hx => h x (by simp [hx]))
    simp [tailsText, hs, this, Option.getD]

theorem tailsText_ignores_child_text (cs : List SubNode) :
    tailsText (cs.map (fun s => { s with text := none })) = tailsText cs := by
  induction cs with
  | nil => rfl
  | cons s rest ih => simp [tailsText, ih]

/-! ### Claim C9 -/

/-- C9 counterexample: merging the valid box (0,0,1,1) with itself returns
the very same box, which it therefore does not strictly contain — the
merge result does not strictly contain both inputs. -/
theorem C9_cex_merge_not_strict :
    (BoundingBox.valid ⟨0, 0, 1, 1⟩) ∧
    BoundingBox.merge_with ⟨0, 0, 1, 1⟩ ⟨0, 0, 1, 1⟩ = ⟨0, 0, 1, 1⟩ ∧
    ¬ (BoundingBox.merge_with ⟨0, 0, 1, 1⟩ ⟨0, 0, 1, 1⟩).strictlyContains
        ⟨0, 0, 1, 1⟩ := by
  refine ⟨by decide, by decide, by decide⟩

/-- C9 (amended): for valid bounding boxes the merge contains both inputs,
but containment is not strict in general — merging a box with itself
yields the box unchanged. -/
theorem C9_merge_contains (a b : BoundingBox) (_ha : a.valid) (_hb : b.valid) :
    (a.merge_with b).contains a ∧ (a.merge_with b).contains b ∧
    a.merge_with a = a := by
  refine ⟨⟨min_le_left _ _, min_le_left _ _, le_max_left _ _, le_max_left _ _⟩,
    ⟨min_le_right _ _, min_le_right _ _, le_max_right _ _, le_max_right _ _⟩, ?_⟩
  simp [BoundingBox.merge_with]

/-- C9 witness: the amended theorem applied to the boxes (0,0,2,2) and
(1,1,3,3). -/
theorem C9_merge_contains_witness :
    (BoundingBox.merge_with ⟨0, 0, 2, 2⟩ ⟨1, 1, 3, 3⟩).contains ⟨0, 0, 2, 2⟩ ∧
    (BoundingBox.merge_with ⟨0, 0, 2, 2⟩ ⟨1, 1, 3, 3⟩).contains ⟨1, 1, 3, 3⟩ ∧
    BoundingBox.merge_with ⟨0, 0, 2, 2⟩ ⟨0, 0, 2, 2⟩ = ⟨0, 0, 2, 2⟩ :=
  C9_merge_contains ⟨0, 0, 2, 2⟩ ⟨1, 1, 3, 3⟩ (by decide) (by decide)

/-! ### Claim C10 -/

/-- C10: the synthesizer's `_get_element_text` reads only the element's
own text and its children's tails (never the children's text), so a word
whose text lies entirely inside a child yields the empty extraction and is
dropped from `word_data`; the dehyphenation engine's `_get_word_text`
extraction does read the child text of the same word. -/
theorem C10_child_text_ignored (w : WordE) (dpi fontScale : ℚ)
    (h1 : w.text = none) (h2 : ∀ s ∈ w.children, s.tail = none) :
    getElementText w = "" ∧
    wordDataOf? w dpi fontScale = none ∧
    (∀ v : WordE,
      getElementText
        { v with children := v.children.map (fun s => { s with text := none }) }
        = getElementText v) ∧
    getElementText wC10 = "" ∧ getWordText wC10 = "word" := by
  have hempty : getElementText w = "" := by
    unfold getElementText
    rw [h1, tailsText_of_none h2]
    rfl
  refine ⟨hempty, ?_, ?_, by decide, by decide⟩
  · unfold wordDataOf?
    simp [hempty]
  · intro v
    unfold getElementText
    rw [tailsText_ignores_child_text]

/-- C10 witness: the theorem applied to the concrete word whose text sits
inside a child element. -/
theorem C10_child_text_ignored_witness :
    getElementText wC10 = "" ∧ wordDataOf? wC10 300 (3/4) = none ∧
    getWordText wC10 = "word" :=
  have h := C10_child_text_ignored wC10 300 (3/4) rfl (by decide)
  ⟨h.1, h.2.1, h.2.2.2.2⟩

/-! ### Claim C5 -/

theorem removeApostrophes_of_isAlpha {s : String} (h : pyIsAlpha s = true) :
    removeApostrophes s = s := by
  unfold pyIsAlpha at h
  rw [Bool.and_eq_true, List.all_eq_true] at h
  refine mk_filter_eq_self (fun c hc => ?_)
  have hca := h.2 c hc
  have : c ≠ Char.ofNat 39 := by
    intro he
    rw [he] at hca
    exact absurd hca (by decide)
  simpa using this

theorem heuristic_accept_iff (m : String) :
    (¬ (¬ pyIsAlpha m ∧ ¬ pyIsAlpha (removeApostrophes m))) ↔
      pyIsAlpha (removeApostrophes m) = true := by
  constructor
  · intro h
    rcases not_and_or.mp h with h1 | h2
    · have hm : pyIsAlpha m = true := by
        revert h1
        cases pyIsAlpha m <;> simp
      rw [removeApostrophes_of_isAlpha hm]
      exact hm
    · revert h2
      cases pyIsAlpha (removeApostrophes m) <;> simp
  · intro h hc
    rw [h] at hc
    exact absurd rfl hc.2

/-- C5: with an oracle the confidence is exactly 0.95 when the merged text
is accepted, else 0.90 when its lowercased form is accepted, else 0.70 when
the lowercased merged text is among the first five lowercased suggestions,
else the candidate is rejected; with no oracle the candidate is accepted at
confidence 0.60 exactly when the merged text with apostrophes removed is
alphabetic, so "num-"+"ber1" is rejected and "num-"+"ber" accepted. -/
theorem C5_confidence_levels (d : Dict) (minLen : Nat) (fe se : WordE)
    (ft st : String) (hlen : minLen ≤ (mergedTextOf ft st).length) :
    ((evaluateMergeCandidate (some d) minLen fe se ft st).map Candidate.confidence
      = if d.check (mergedTextOf ft st) then some (19/20)
        else if d.check (pyLower (mergedTextOf ft st)) then some (9/10)
        else if pyLower (mergedTextOf ft st) ∈
            ((d.suggest (mergedTextOf ft st)).take 5).map pyLower then some (7/10)
        else none) ∧
    ((evaluateMergeCandidate none minLen fe se ft st).isSome
      = pyIsAlpha (removeApostrophes (mergedTextOf ft st))) ∧
    ((evaluateMergeCandidate none minLen fe se ft st).map Candidate.confidence
      = if pyIsAlpha (removeApostrophes (mergedTextOf ft st)) then some (3/5)
        else none) ∧
    evaluateMergeCandidate none 4 fe se "num-" "ber1" = none ∧
    (evaluateMergeCandidate none 4 fe se "num-" "ber").map Candidate.confidence
      = some (3/5) := by
  have hlen' : ¬ (mergedTextOf ft st).length < minLen := Nat.not_lt.mpr hlen
  have hmap : ∀ (dict : Option Dict),
      (evaluateMergeCandidate dict minLen fe se ft st).map Candidate.confidence
        = mergeConfidence dict (mergedTextOf ft st) := by
    intro dict
    unfold evaluateMergeCandidate
    rw [if_neg hlen']
    cases mergeConfidence dict (mergedTextOf ft st) <;> rfl
  have hsome : (evaluateMergeCandidate none minLen fe se ft st).isSome
      = (mergeConfidence none (mergedTextOf ft st)).isSome := by
    unfold evaluateMergeCandidate
    rw [if_neg hlen']
    cases mergeConfidence none (mergedTextOf ft st) <;> rfl
  have hconf : mergeConfidence none (mergedTextOf ft st)
      = if pyIsAlpha (removeApostrophes (mergedTextOf ft st)) then some (3/5)
        else none := by
    unfold mergeConfidence
    by_cases h : ¬ pyIsAlpha (mergedTextOf ft st) ∧
        ¬ pyIsAlpha (removeApostrophes (mergedTextOf ft st))
    · rw [if_pos h, Bool.eq_false_iff.mpr h.2]
      rfl
    · rw [if_neg h, (heuristic_accept_iff _).mp h]
      rfl
  refine ⟨hmap (some d), ?_, ?_, rfl, rfl⟩
  · rw [hsome, hconf]
    by_cases hb : pyIsAlpha (removeApostrophes (mergedTextOf ft st)) = true
    · rw [hb, if_pos rfl]
      rfl
    · rw [Bool.eq_false_iff.mpr hb, if_neg (by simp)]
      rfl
  · rw [hmap none, hconf]

/-- C5 witness: the theorem applied at "num-"+"ber1" (rejected without an
oracle) and "num-"+"ber" (accepted at confidence 0.60). -/
theorem C5_confidence_levels_witness :
    evaluateMergeCandidate none 4 wC3 wC3 "num-" "ber1" = none ∧
    (evaluateMergeCandidate none 4 wC3 wC3 "num-" "ber").map Candidate.confidence
      = some (3/5) :=
  ⟨(C5_confidence_levels dNull 4 wC3 wC3 "num-" "ber1" (by decide)).2.2.2.1,
   (C5_confidence_levels dNull 4 wC3 wC3 "num-" "ber" (by decide)).2.2.2.2⟩

/-! ### Claim C6 -/

theorem evaluateMergeCandidate_some {dict : Option Dict} {minLen : Nat}
    {fe se : WordE} {ft st : String} {c : Candidate}
    (h : evaluateMergeCandidate dict minLen fe se ft st = some c) :
    c.mergedText = mergedTextOf ft st ∧ c.firstText = ft ∧ c.secondText = st ∧
    minLen ≤ c.mergedText.length := by
  unfold evaluateMergeCandidate at h
  by_cases hl : (mergedTextOf ft st).length < minLen
  · rw [if_pos hl] at h
    exact absurd h (by simp)
  · rw [if_neg hl] at h
    rcases Option.map_eq_some'.mp h with ⟨conf, _, hc⟩
    rw [← hc]
    exact ⟨rfl, rfl, rfl, Nat.not_lt.mp hl⟩

theorem pairCandidates_mem {dict : Option Dict} {minLen : Nat}
    {cur nxt : LineE} {c : Candidate}
    (h : c ∈ pairCandidates dict minLen cur nxt) :
    ∃ lastW firstW, evaluateMergeCandidate dict minLen lastW firstW
        (getWordText lastW) (getWordText firstW) = some c := by
  unfold pairCandidates at h
  rcases hL : cur.words.getLast? with _ | lastW <;> rw [hL] at h
  · simp at h
  · rcases hH : nxt.words.head? with _ | firstW <;> rw [hH] at h
    · simp at h
    · dsimp only at h
      split_ifs at h with h1 h2
      · simp at h
      · rw [Option.mem_toList, Option.mem_def] at h
        exact ⟨lastW, firstW, h⟩
      · simp at h

theorem findMergeCandidates_mem {dict : Option Dict} {minLen : Nat}
    {page : Page} {c : Candidate}
    (h : c ∈ findMergeCandidates dict minLen page) :
    ∃ lastW firstW, evaluateMergeCandidate dict minLen lastW firstW
        (getWordText lastW) (getWordText firstW) = some c := by
  induction page with
  | nil => simp [findMergeCandidates] at h
  | cons l ls ih =>
    cases ls with
    | nil => simp [findMergeCandidates] at h
    | cons l2 ls2 =>
      rw [findMergeCandidates] at h
      rcases List.mem_append.mp h with h1 | h2
      · exact pairCandidates_mem h1
      · exact ih h2

/-- C6 (amended): every found merge candidate's text is the first word's
text with ALL trailing hyphens stripped, concatenated verbatim with the
second word's text, and candidates whose merged text is shorter than the
configured minimum are rejected — in particular the "a-"/"b" page merges
nothing and the count stays 0. -/
theorem C6_merge_text_and_min_length (dict : Option Dict) (minLen : Nat)
    (page : Page) :
    (∀ c ∈ findMergeCandidates dict minLen page,
        c.mergedText = rstripHyphens c.firstText ++ c.secondText ∧
        minLen ≤ c.mergedText.length) ∧
    (∀ fe se ft st, (rstripHyphens ft ++ st).length < minLen →
        evaluateMergeCandidate dict minLen fe se ft st = none) ∧
    processPage none 4 pageA_B = (pageA_B, 0) := by
  refine ⟨?_, ?_, rfl⟩
  · intro c hc
    rcases findMergeCandidates_mem hc with ⟨lw, fw, he⟩
    rcases evaluateMergeCandidate_some he with ⟨h1, h2, h3, h4⟩
    constructor
    · rw [h1, h2, h3]
      rfl
    · exact h4
  · intro fe se ft st hl
    unfold evaluateMergeCandidate
    exact if_pos hl

/-- C6 counterexample: for the line pair "ab--" / "cd" the code's merge
candidate text is "abcd" (all trailing hyphens stripped), while stripping
only the single trailing hyphen as the claim states would give "ab-cd". -/
theorem C6_cex_double_hyphen :
    (findMergeCandidates none 4 pageC6).map Candidate.mergedText = ["abcd"] ∧
    claimMergedText "ab--" "cd" = "ab-cd" ∧
    ("abcd" : String) ≠ "ab-cd" :=
  ⟨by decide, by decide, by decide⟩

/-- C6 witness: the amended theorem applied to the "a-"/"b" page and to the
concrete too-short pair. -/
theorem C6_merge_text_witness :
    processPage none 4 pageA_B = (pageA_B, 0) ∧
    evaluateMergeCandidate none 4 wA6 wB6 "a-" "b" = none :=
  ⟨(C6_merge_text_and_min_length none 4 pageA_B).2.2,
   (C6_merge_text_and_min_length none 4 pageA_B).2.1 wA6 wB6 "a-" "b" (by decide)⟩

/-! ### Claim C7 -/

/-- C7 (amended): when both the strict and the lenient parse fail, the
synthesizer raises an error that reaches its caller, but the dehyphenation
engine catches the failure and returns the normal merge count 0 instead of
surfacing it. -/
theorem C7_parse_failure_behavior (m : Markup) (dict : Option Dict)
    (minLen : Nat) (h1 : m.strictParse = none) (h2 : m.lenientParse = none) :
    pikeParseHocr m = Except.error () ∧ dehyphProcessFile dict minLen m = 0 := by
  unfold pikeParseHocr dehyphProcessFile dehyphParseHocr
  rw [h1, h2]
  exact ⟨rfl, rfl⟩

/-- C7 counterexample: on a markup rejected by both parsers, the
dehyphenation engine's `process_file` returns the ordinary value 0 — it
does not surface the failure to the caller as the claim requires for both
engines (the synthesizer does raise). -/
theorem C7_cex_dehyph_swallows :
    dehyphProcessFile none 4 badMarkup = 0 ∧
    pikeParseHocr badMarkup = Except.error () :=
  ⟨rfl, rfl⟩

/-- C7 witness: the amended theorem applied to the concrete unparsable
markup. -/
theorem C7_parse_failure_witness :
    pikeParseHocr badMarkup = Except.error () ∧
    dehyphProcessFile (some dNull) 4 badMarkup = 0 :=
  C7_parse_failure_behavior badMarkup (some dNull) 4 rfl rfl

/-! ### Claim C1 -/

/-- Every kern in a TJ array is immediately followed by the literal
single-space run. -/
def kernsPaired : List TJItem → Bool
  | [] => true
  | TJItem.kern _ :: TJItem.str s :: rest => (s = " ") && kernsPaired rest
  | TJItem.kern _ :: _ => false
  | TJItem.str _ :: rest => kernsPaired rest

theorem mkTJrest_kern {wd : List WordData} {k : Int}
    (h : TJItem.kern k ∈ mkTJrest wd) : k = -300 := by
  induction wd with
  | nil => simp [mkTJrest] at h
  | cons w ws ih =>
    simp only [mkTJrest, List.mem_cons] at h
    rcases h with h | h | h | h
    · simpa using h
    · simp at h
    · simp at h
    · exact ih h

theorem mkTJ_kern {wd : List WordData} {k : Int}
    (h : TJItem.kern k ∈ mkTJ wd) : k = -300 := by
  cases wd with
  | nil => simp [mkTJ] at h
  | cons w ws =>
    simp only [mkTJ, List.mem_cons] at h
    rcases h with h | h
    · simp at h
    · exact mkTJrest_kern h

theorem kernsPaired_mkTJrest (wd : List WordData) :
    kernsPaired (mkTJrest wd) = true := by
  induction wd with
  | nil => rfl
  | cons w ws ih => simpa [mkTJrest, kernsPaired] using ih

theorem kernsPaired_mkTJ (wd : List WordData) :
    kernsPaired (mkTJ wd) = true := by
  cases wd with
  | nil => rfl
  | cons w ws => simpa [mkTJ, kernsPaired] using kernsPaired_mkTJrest ws

/-- C1: in every line the synthesizer emits (here with at least two
collected words, as the claim states), every kern placed in the grouped
show-text TJ array equals the fixed value -300 — magnitude strictly below
1000 — and every kern is immediately followed by a literal single-space
run. -/
theorem C1_tj_kern_bounded (words : List WordE) (yPt dpi fontScale : ℚ)
    (mode : Int) (htwo : 2 ≤ (collectWordData dpi fontScale words).length) :
    ∀ items : List TJItem,
      Instr.TJ items ∈ (buildLineWithTJ words yPt dpi fontScale mode).1 →
      (∀ k : Int, TJItem.kern k ∈ items → k = -300 ∧ k.natAbs < 1000) ∧
      kernsPaired items = true := by
  intro items hmem
  have hw : words ≠ [] := by
    intro he
    rw [he] at htwo
    simp [collectWordData] at htwo
  unfold buildLineWithTJ at hmem
  rw [if_neg hw] at hmem
  rcases hcd : collectWordData dpi fontScale words with _ | ⟨w, ws⟩ <;>
    rw [hcd] at hmem
  · simp at hmem
  · dsimp only at hmem
    have hitems : items = mkTJ (w :: ws) := by
      simp only [List.mem_cons, List.not_mem_nil, or_false] at hmem
      rcases hmem with h | h | h | h | h | h <;> simp_all
    subst hitems
    refine ⟨fun k hk => ?_, kernsPaired_mkTJ _⟩
    have hk300 := mkTJ_kern hk
    exact ⟨hk300, by rw [hk300]; decide⟩

/-- C1 witness: the theorem applied to a concrete two-word line. -/
theorem C1_tj_kern_bounded_witness :
    kernsPaired (mkTJ (collectWordData 300 (3/4) [wA, wB])) = true ∧
    ((-300 : Int) = -300 ∧ Int.natAbs (-300) < 1000) := by
  have h := C1_tj_kern_bounded [wA, wB] 0 300 (3/4) 3 (by decide)
      (mkTJ (collectWordData 300 (3/4) [wA, wB])) (by decide)
  exact ⟨h.2, h.1 (-300) (by decide)⟩

/-! ### Claim C3 -/

theorem wordDataOf?_of_qualifies {w : WordE} (dpi fontScale : ℚ)
    (hq : qualifies w = true) :
    wordDataOf? w dpi fontScale =
      some { text := getElementText w,
             x_pt := ((parseBBox w.title).x1 : ℚ) / dpi * 72,
             font_size := max 4 (((parseBBox w.title).height : ℚ) / dpi * 72 *
               fontScale),
             bbox := parseBBox w.title } := by
  unfold qualifies at hq
  split_ifs at hq with h1 h2
  unfold wordDataOf?
  rw [if_neg h1, if_neg h2]

theorem collectWordData_mem {ws : List WordE} {w : WordE} (dpi fontScale : ℚ)
    (hw : w ∈ ws) (hq : qualifies w = true) :
    ({ text := getElementText w,
       x_pt := ((parseBBox w.title).x1 : ℚ) / dpi * 72,
       font_size := max 4 (((parseBBox w.title).height : ℚ) / dpi * 72 *
         fontScale),
       bbox := parseBBox w.title } : WordData)
      ∈ collectWordData dpi fontScale ws := by
  induction ws with
  | nil => simp at hw
  | cons v vs ih =>
    rcases List.mem_cons.mp hw with h | h
    · subst h
      rw [collectWordData, wordDataOf?_of_qualifies dpi fontScale hq]
      exact List.mem_cons_self _ _
    · rw [collectWordData]
      cases wordDataOf? v dpi fontScale with
      | none => exact ih h
      | some d => exact List.mem_cons_of_mem _ (ih h)

/-- C3: for every qualifying word the synthesizer computes the page-unit
origin X as x1/dpi*72 and the font size as max(4, (y2-y1)/dpi*72 *
size_ratio); the line baseline Y is page height in points (H/dpi*72) minus
y2/dpi*72; on the worked example, bbox (100,100,200,130) at dpi 300 with
ratio 0.75 yields X = 24 and font size 5.4 = 27/5. -/
theorem C3_coordinate_transform (words : List WordE) (w : WordE)
    (dpi fontScale heightPx : ℚ) (hw : w ∈ words)
    (hq : qualifies w = true) :
    ({ text := getElementText w,
       x_pt := ((parseBBox w.title).x1 : ℚ) / dpi * 72,
       font_size := max 4 (((parseBBox w.title).height : ℚ) / dpi * 72 *
         fontScale),
       bbox := parseBBox w.title } : WordData)
      ∈ collectWordData dpi fontScale words ∧
    (∀ t : String, lineYPt (heightPx / dpi * 72) t dpi
        = heightPx / dpi * 72 - ((parseBBox t).y2 : ℚ) / dpi * 72) ∧
    collectWordData 300 (3/4) [wC3]
      = [{ text := "w", x_pt := 24, font_size := 27/5,
           bbox := ⟨100, 100, 200, 130⟩ }] := by
  refine ⟨collectWordData_mem dpi fontScale hw hq, fun t => rfl, ?_⟩
  have h1 : (((100 : Int) : ℚ)) / 300 * 72 = 24 := by norm_num
  have h2 : (((30 : Int) : ℚ)) / 300 * 72 * (3/4) = 27/5 := by norm_num
  have h3 : max (4 : ℚ) ((((30 : Int) : ℚ)) / 300 * 72 * (3/4)) = 27/5 := by
    rw [h2]
    exact max_eq_right (by norm_num)
  calc collectWordData 300 (3/4) [wC3]
      = [{ text := "w", x_pt := (((100 : Int) : ℚ)) / 300 * 72,
           font_size := max 4 ((((30 : Int) : ℚ)) / 300 * 72 * (3/4)),
           bbox := ⟨100, 100, 200, 130⟩ }] := rfl
    _ = [{ text := "w", x_pt := 24, font_size := 27/5,
           bbox := ⟨100, 100, 200, 130⟩ }] := by rw [h1, h3]

/-- C3 witness: the theorem applied to the worked example's word. -/
theorem C3_coordinate_transform_witness :
    collectWordData 300 (3/4) [wC3]
      = [{ text := "w", x_pt := 24, font_size := 27/5,
           bbox := ⟨100, 100, 200, 130⟩ }] :=
  (C3_coordinate_transform [wC3] wC3 300 (3/4) 3300 (by decide) (by decide)).2.2

/-! ### Claim C8 -/

theorem dropNonAscii_of_ascii {s : String} (h : isAsciiStr s = true) :
    dropNonAscii s = s := by
  unfold isAsciiStr at h
  rw [List.all_eq_true] at h
  exact mk_filter_eq_self (fun c hc => by simpa using h c hc)

/-- C8 (amended): backslash and both parentheses are always escaped, but
newline, carriage return and tab are escaped to their two-character forms
only on ASCII-only input; non-ASCII input is normalized through the fixed
substitution table and any remaining non-ASCII characters are dropped,
with only backslash/parenthesis escaping applied afterwards. -/
theorem C8_escape_behavior (s : String) :
    (isAsciiStr s = true → escapePdfString s = escapeFull s) ∧
    (isAsciiStr s = false →
      escapePdfString s = escapeBasic (dropNonAscii (normalizeUnicode s))) ∧
    escapeFull (String.mk ['\n']) = String.mk ['\\', 'n'] ∧
    escapeBasic (String.mk ['\n']) = String.mk ['\n'] := by
  refine ⟨?_, ?_, by decide, by decide⟩
  · intro h
    unfold escapePdfString
    rw [if_pos h]
  · intro h
    unfold escapePdfString
    rw [if_neg (by simp [h])]
    by_cases hn : isAsciiStr (normalizeUnicode s) = true
    · rw [if_pos hn, dropNonAscii_of_ascii hn]
    · rw [if_neg hn]

/-- C8 counterexample: the word text "a\nbé" (interior newline, trailing
é) is escaped to the three characters a, newline, b — the newline survives
unescaped in the literal text run placed in the TJ array, where the claim
requires the two-character form backslash-n. -/
theorem C8_cex_newline_unescaped :
    escapePdfString sC8 = String.mk ['a', '\n', 'b'] ∧
    mkTJ [{ text := sC8, x_pt := 0, font_size := 4, bbox := ⟨0, 0, 5, 5⟩ }]
      = [TJItem.str (String.mk ['a', '\n', 'b'])] ∧
    String.mk ['a', '\n', 'b'] ≠ String.mk ['a', '\\', 'n', 'b'] :=
  ⟨by decide, by decide, by decide⟩

/-- C8 witness: the amended theorem applied to an ASCII string and to the
concrete non-ASCII string. -/
theorem C8_escape_behavior_witness :
    escapePdfString "a(b" = escapeFull "a(b" ∧
    escapePdfString sC8 = escapeBasic (dropNonAscii (normalizeUnicode sC8)) :=
  ⟨(C8_escape_behavior "a(b").1 (by decide),
   (C8_escape_behavior sC8).2.1 (by decide)⟩

/-! ### Claim C2 -/

theorem wordDataOf?_eq_none {w : WordE} {dpi fontScale : ℚ} :
    wordDataOf? w dpi fontScale = none ↔ qualifies w = false := by
  by_cases h1 : getElementText w = ""
  · simp [wordDataOf?, qualifies, h1]
  · by_cases h2 : (parseBBox w.title).width ≤ 0 ∨ (parseBBox w.title).height ≤ 0
    · simp [wordDataOf?, qualifies, h1, h2]
    · simp [wordDataOf?, qualifies, h1, h2]

theorem collectWordData_eq_nil {ws : List WordE} {dpi fontScale : ℚ} :
    collectWordData dpi fontScale ws = [] ↔ ws.any qualifies = false := by
  induction ws with
  | nil => simp [collectWordData]
  | cons w vs ih =>
    rw [collectWordData]
    cases hd : wordDataOf? w dpi fontScale with
    | some d =>
      have hq : qualifies w = true := by
        rcases hq : qualifies w with _ | _
        · rw [wordDataOf?_eq_none.mpr hq] at hd
          exact absurd hd (by simp)
        · rfl
      simp [hq]
    | none =>
      have hq : qualifies w = false := by
        by_contra hc
        have hq' : qualifies w = true := by
          rcases hq2 : qualifies w with _ | _
          · exact absurd hq2 hc
          · rfl
        rw [wordDataOf?_of_qualifies dpi fontScale hq'] at hd
        exact absurd hd (by simp)
      simp [hq, ih]

theorem textObjectFor_of_no_qual {pageHeightPt dpi fontScale : ℚ}
    {mode : Int} {l : LineE} (hq : lineHasQual l = false) :
    textObjectFor pageHeightPt dpi fontScale mode l = [] := by
  unfold textObjectFor buildLineWithTJ
  by_cases hw : l.words = []
  · rw [if_pos hw]
  · rw [if_neg hw]
    unfold lineHasQual at hq
    rw [collectWordData_eq_nil.mpr hq]

theorem textObjectFor_shape {pageHeightPt dpi fontScale : ℚ} {mode : Int}
    {l : LineE} (hq : lineHasQual l = true) :
    ∃ a x tj, textObjectFor pageHeightPt dpi fontScale mode l
      = [Instr.BT, Instr.Tr mode, Instr.Tf a,
         Instr.Tm x (lineYPt pageHeightPt l.title dpi), Instr.TJ tj,
         Instr.ET] := by
  unfold textObjectFor buildLineWithTJ
  have hw : l.words ≠ [] := by
    intro he
    unfold lineHasQual at hq
    rw [he] at hq
    simp at hq
  rw [if_neg hw]
  rcases hcd : collectWordData dpi fontScale l.words with _ | ⟨w, ws⟩
  · exfalso
    rw [collectWordData_eq_nil] at hcd
    unfold lineHasQual at hq
    rw [hq] at hcd
    exact absurd hcd (by simp)
  · exact ⟨_, _, _, rfl⟩

theorem buildTextLayer_eq_filter (pageHeightPt dpi fontScale : ℚ)
    (mode : Int) (lines : List LineE) :
    buildTextLayer pageHeightPt dpi fontScale mode lines
      = (lines.filter lineHasQual).foldr
          (fun l acc => textObjectFor pageHeightPt dpi fontScale mode l ++ acc)
          [] := by
  induction lines with
  | nil => rfl
  | cons l ls ih =>
    rw [buildTextLayer, ih]
    rcases hq : lineHasQual l with _ | _
    · rw [List.filter_cons_of_neg (by simp [hq])]
      have hguard : (if l.words = [] then []
          else (buildLineWithTJ l.words (lineYPt pageHeightPt l.title dpi)
                  dpi fontScale mode).1) = [] := by
        by_cases hw : l.words = []
        · rw [if_pos hw]
        · rw [if_neg hw]
          exact @textObjectFor_of_no_qual pageHeightPt dpi fontScale mode l hq
      rw [hguard]
      rfl
    · rw [List.filter_cons_of_pos (by simp [hq])]
      have hw : l.words ≠ [] := by
        intro he
        unfold lineHasQual at hq
        rw [he] at hq
        simp at hq
      rw [if_neg hw]
      rfl

/-- C2: the synthesized instruction sequence is the text layer followed by
the image-paint quadruple (save-state, scale transform, paint-image,
restore-state); the text layer consists, in order, of exactly one
six-instruction text object — one BT/ET pair containing exactly one TJ —
per line with at least one qualifying word (non-empty text, positive box
width and height), and nothing for any other line. -/
theorem C2_text_objects_then_image (lines : List LineE)
    (widthPx heightPx dpi fontScale : ℚ) (mode : Int) :
    createContentStream lines widthPx heightPx dpi fontScale mode
      = buildTextLayer (heightPx / dpi * 72) dpi fontScale mode lines ++
        [Instr.q, Instr.cm (widthPx / dpi * 72) (heightPx / dpi * 72),
         Instr.doIm, Instr.Q] ∧
    buildTextLayer (heightPx / dpi * 72) dpi fontScale mode lines
      = (lines.filter lineHasQual).foldr
          (fun l acc =>
            textObjectFor (heightPx / dpi * 72) dpi fontScale mode l ++ acc)
          [] ∧
    (∀ l : LineE, lineHasQual l = true →
        ∃ a x tj, textObjectFor (heightPx / dpi * 72) dpi fontScale mode l
          = [Instr.BT, Instr.Tr mode, Instr.Tf a,
             Instr.Tm x (lineYPt (heightPx / dpi * 72) l.title dpi),
             Instr.TJ tj, Instr.ET]) ∧
    (∀ l : LineE, lineHasQual l = false →
        textObjectFor (heightPx / dpi * 72) dpi fontScale mode l = []) :=
  ⟨rfl, buildTextLayer_eq_filter _ _ _ _ _,
   fun _ h => textObjectFor_shape h, fun _ h => textObjectFor_of_no_qual h⟩

/-- C2 witness: the theorem applied to a one-line page holding two words. -/
theorem C2_text_objects_then_image_witness :
    createContentStream [lineW] 2550 3300 300 (3/4) 3
      = buildTextLayer ((3300 : ℚ) / 300 * 72) 300 (3/4) 3 [lineW] ++
        [Instr.q, Instr.cm ((2550 : ℚ) / 300 * 72) ((3300 : ℚ) / 300 * 72),
         Instr.doIm, Instr.Q] ∧
    (∃ a x tj, textObjectFor ((3300 : ℚ) / 300 * 72) 300 (3/4) 3 lineW
      = [Instr.BT, Instr.Tr 3, Instr.Tf a,
         Instr.Tm x (lineYPt ((3300 : ℚ) / 300 * 72) lineW.title 300),
         Instr.TJ tj, Instr.ET]) :=
  ⟨(C2_text_objects_then_image [lineW] 2550 3300 300 (3/4) 3).1,
   (C2_text_objects_then_image [lineW] 2550 3300 300 (3/4) 3).2.2.1 lineW
     (by decide)⟩

/-! ### Claim C4 -/

theorem find?_id_map (ws : List WordE) (i : Nat) (f : WordE → WordE)
    (hf : ∀ w, (f w).id = w.id) :
    (ws.map (fun w => if w.id = i then f w else w)).find? (fun w => w.id = i)
      = (ws.find? (fun w => w.id = i)).map f := by
  induction ws with
  | nil => rfl
  | cons w ws ih =>
    by_cases h : w.id = i
    · rw [List.map_cons, if_pos h,
        List.find?_cons_of_pos _ (by simp [hf w, h]),
        List.find?_cons_of_pos _ (by simp [h])]
      rfl
    · rw [List.map_cons, if_neg h,
        List.find?_cons_of_neg _ (by simp [h]),
        List.find?_cons_of_neg _ (by simp [h])]
      exact ih

theorem find?_id_filter_ne (ws : List WordE) (i j : Nat) (hij : i ≠ j) :
    (ws.filter (fun w => w.id ≠ j)).find? (fun w => w.id = i)
      = ws.find? (fun w => w.id = i) := by
  induction ws with
  | nil => rfl
  | cons w ws ih =>
    by_cases hj : w.id = j
    · rw [List.filter_cons_of_neg (by simp [hj]),
        List.find?_cons_of_neg _ (by simp [hj, hij.symm]), ih]
    · rw [List.filter_cons_of_pos (by simp [hj])]
      by_cases hi : w.id = i
      · rw [List.find?_cons_of_pos _ (by simp [hi]),
          List.find?_cons_of_pos _ (by simp [hi])]
      · rw [List.find?_cons_of_neg _ (by simp [hi]),
          List.find?_cons_of_neg _ (by simp [hi]), ih]

theorem find?_id_filter_self (ws : List WordE) (j : Nat) :
    (ws.filter (fun w => w.id ≠ j)).find? (fun w => w.id = j) = none := by
  rw [List.find?_eq_none]
  intro w hw
  have := List.of_mem_filter hw
  simpa using this

theorem allWords_mapWordId (page : Page) (i : Nat) (f : WordE → WordE) :
    allWords (mapWordId page i f)
      = (allWords page).map (fun w => if w.id = i then f w else w) := by
  induction page with
  | nil => rfl
  | cons l ls ih =>
    show (l.words.map _) ++ allWords (mapWordId ls i f)
        = ((l.words ++ allWords ls).map _)
    rw [List.map_append, ih]

theorem allWords_removeWordId (page : Page) (j : Nat) :
    allWords (removeWordId page j)
      = (allWords page).filter (fun w => w.id ≠ j) := by
  induction page with
  | nil => rfl
  | cons l ls ih =>
    show (l.words.filter _) ++ allWords (removeWordId ls j)
        = ((l.words ++ allWords ls).filter _)
    rw [List.filter_append, ih]

theorem wordWithId_applyOne_first (page : Page) (c : Candidate) (w : WordE)
    (h2 : c.firstId ≠ c.secondId)
    (h3 : wordWithId page c.firstId = some w) :
    wordWithId (applyOne page c) c.firstId = some (mergedWord w c) := by
  unfold applyOne wordWithId
  rw [allWords_removeWordId, allWords_mapWordId,
    find?_id_filter_ne _ _ _ h2,
    find?_id_map (allWords page) c.firstId (fun v => mergedWord v c)
      (fun v => rfl)]
  unfold wordWithId at h3
  rw [h3]
  rfl

theorem wordWithId_applyOne_second (page : Page) (c : Candidate) :
    wordWithId (applyOne page c) c.secondId = none := by
  unfold applyOne wordWithId
  rw [allWords_removeWordId]
  exact find?_id_filter_self _ _

theorem applyMerges_count (cs : List Candidate) : ∀ page : Page,
    (applyMerges page cs).2
      = (cs.filter (fun c => ¬ c.confidence < 1/2)).length := by
  induction cs with
  | nil => intro page; rfl
  | cons c cs ih =>
    intro page
    by_cases h : c.confidence < 1/2
    · rw [applyMerges, if_pos h, ih,
        List.filter_cons_of_neg (by simpa using h)]
    · rw [applyMerges, if_neg h,
        List.filter_cons_of_pos (by simpa using not_lt.mp h)]
      show (applyMerges (applyOne page c) cs).2 + 1 = _
      rw [ih]
      rfl

theorem updateBboxParts_preserves (bbox : BoundingBox) (ps : List String)
    (f : String) (hf : f ∈ (ps.map pyStrip).filter (fun p => p ≠ ""))
    (hb : pyStartsWith f "bbox" = false) :
    f ∈ (updateBboxParts bbox ps).1 := by
  induction ps with
  | nil => simp at hf
  | cons p ps ih =>
    rw [List.map_cons] at hf
    by_cases hp : pyStrip p = ""
    · rw [List.filter_cons_of_neg (by simp [hp])] at hf
      have htail := ih hf
      unfold updateBboxParts
      by_cases hs : pyStartsWith (pyStrip p) "bbox" = true
      · rw [if_pos hs]
        exact List.mem_cons_of_mem _ htail
      · rw [if_neg hs, if_neg (by simp [hp])]
        exact htail
    · rw [List.filter_cons_of_pos (by simp [hp])] at hf
      rcases List.mem_cons.mp hf with he | hf'
      · subst he
        unfold updateBboxParts
        rw [if_neg (by simp [hb]), if_pos (by simp [hp])]
        exact List.mem_cons_self _ _
      · have htail := ih hf'
        unfold updateBboxParts
        by_cases hs : pyStartsWith (pyStrip p) "bbox" = true
        · rw [if_pos hs]
          exact List.mem_cons_of_mem _ htail
        · rw [if_neg hs, if_pos (by simp [hp])]
          exact List.mem_cons_of_mem _ htail

theorem updateBboxFields_preserves (title : String) (bbox : BoundingBox)
    (f : String) (hf : f ∈ titleFields title)
    (hb : pyStartsWith f "bbox" = false) :
    f ∈ updateBboxFields title bbox := by
  have h1 : f ∈ (updateBboxParts bbox (pySplitOn title ';')).1 :=
    updateBboxParts_preserves bbox _ f hf hb
  unfold updateBboxFields
  by_cases h2 : (updateBboxParts bbox (pySplitOn title ';')).2 = true
  · rw [if_pos h2]
    exact h1
  · rw [if_neg h2]
    exact List.mem_cons_of_mem _ h1

/-- C4 (amended): applying a merge candidate with confidence ≥ 0.5 sets
the first word's text to the merged text, clears the text and tail of each
of its sub-nodes, rewrites its title so that every field starting with
"bbox" becomes the merged-bbox string while every other nonempty field's
trimmed text is kept in order, deletes the second word from its line, and
`_apply_merges` returns the number of candidates with confidence ≥ 0.5. -/
theorem C4_merge_application (page : Page) (c : Candidate) (w : WordE)
    (h1 : 1/2 ≤ c.confidence) (h2 : c.firstId ≠ c.secondId)
    (h3 : wordWithId page c.firstId = some w) :
    (applyMerges page [c]).2 = 1 ∧
    wordWithId (applyMerges page [c]).1 c.firstId = some (mergedWord w c) ∧
    wordWithId (applyMerges page [c]).1 c.secondId = none ∧
    (mergedWord w c).text = some c.mergedText ∧
    (∀ s ∈ (mergedWord w c).children, s.text = none ∧ s.tail = none) ∧
    (mergedWord w c).title
      = updateBboxInTitle w.title (c.firstBBox.merge_with c.secondBBox) ∧
    (∀ f ∈ titleFields w.title, pyStartsWith f "bbox" = false →
        f ∈ updateBboxFields w.title (c.firstBBox.merge_with c.secondBBox)) ∧
    (∀ cs : List Candidate, (applyMerges page cs).2
        = (cs.filter (fun c => ¬ c.confidence < 1/2)).length) := by
  have hnl : ¬ c.confidence < 1/2 := not_lt.mpr h1
  have happ : applyMerges page [c] = (applyOne page c, 1) := by
    rw [applyMerges, if_neg hnl]
    rfl
  refine ⟨by rw [happ], ?_, ?_, rfl, ?_, rfl, ?_, fun cs => applyMerges_count cs page⟩
  · rw [happ]
    exact wordWithId_applyOne_first page c w h2 h3
  · rw [happ]
    exact wordWithId_applyOne_second page c
  · intro s hs
    unfold mergedWord at hs
    simp only [List.mem_map] at hs
    rcases hs with ⟨t, _, ht⟩
    rw [← ht]
    exact ⟨rfl, rfl⟩
  · intro f hf hb
    exact updateBboxFields_preserves w.title _ f hf hb

/-- C4 counterexample: for a candidate with confidence 0.95 whose first
word's title is "bbox 0 0 2 2; bboxy 7", the rewrite replaces BOTH fields
by the merged bbox string, so the non-bbox attribute field "bboxy 7" is
not preserved — it vanishes from the title. -/
theorem C4_cex_bbox_field_lost :
    (1/2 : ℚ) ≤ candCx.confidence ∧
    wordWithId pageCx candCx.firstId = some wCx ∧
    titleFields wCx.title = ["bbox 0 0 2 2", "bboxy 7"] ∧
    (wordWithId (applyMerges pageCx [candCx]).1 candCx.firstId).map WordE.title
      = some "bbox 0 0 5 5; bbox 0 0 5 5" ∧
    "bboxy 7" ∉ titleFields "bbox 0 0 5 5; bbox 0 0 5 5" := by
  refine ⟨by norm_num [candCx], by decide, by decide, ?_, by decide⟩
  rw [applyMerges, if_neg (by norm_num [candCx])]
  decide

/-- C4 witness: the amended theorem applied to the concrete accepted
candidate. -/
theorem C4_merge_application_witness :
    (applyMerges pageC4 [candC4]).2 = 1 ∧
    wordWithId (applyMerges pageC4 [candC4]).1 candC4.firstId
      = some (mergedWord wC4 candC4) ∧
    wordWithId (applyMerges pageC4 [candC4]).1 candC4.secondId = none :=
  have h := C4_merge_application pageC4 candC4 wC4 (by norm_num [candC4])
    (by decide) (by decide)
  ⟨h.1, h.2.1, h.2.2.1⟩

end Morphic
